import Mathlib

/-!
Shallow embedding of the `egui_keyboard` crate (src/egui_keyboard/src/lib.rs).

Floating-point (`f32`) arithmetic of the source is modelled by exact rational
arithmetic (`ℚ`); `u32` by `ℕ` (with `Nat` truncated subtraction matching
`saturating_sub`); Rust strings iterated by `chars()` by `List Char`.
Division by zero in `ℚ` yields `0`, which we keep in mind for degenerate
layouts (in `f32` the corresponding division yields an infinity).
-/

namespace EguiKeyboard

/-- The `Key` enum of the source: `Text(&'static str)`, `Backspace`, `Upper`,
`Space`, `Special`. -/
inductive Key where
  | Text (s : String)
  | Backspace
  | Upper
  | Space
  | Special
deriving DecidableEq

/-- `Key::width_relative`: Text = 1.0, Backspace = 1.5, Upper = 1.5,
Space = 0.0, Special = 1.5. -/
def Key.width_relative : Key → ℚ
  | .Text _ => 1
  | .Backspace => 3/2
  | .Upper => 3/2
  | .Space => 0
  | .Special => 3/2

/-- `const SPACE_BETWEEN_KEYS: f32 = 1.0 / 6.0;` -/
def SPACE_BETWEEN_KEYS : ℚ := 1/6

/-- `row.iter().map(|key| key.width_relative()).sum::<f32>()` (the
`row_buttons_width` local of `Keyboard::show`). -/
def row_buttons_width (row : List Key) : ℚ :=
  (row.map Key.width_relative).sum

/-- The per-row expression mapped inside the `widest_row` computation:
`row.iter().map(width_relative).sum() + (row.len() as f32 + 1.0) * SPACE_BETWEEN_KEYS`. -/
def row_units (row : List Key) : ℚ :=
  row_buttons_width row + ((row.length : ℚ) + 1) * SPACE_BETWEEN_KEYS

/-- `let widest_row = keys.iter().map(...).reduce(f32::max).unwrap_or(0.0);`
`Iterator::reduce` with `max` is a left fold over the mapped values; an empty
grid yields `0.0`. -/
def widest_row (keys : List (List Key)) : ℚ :=
  match keys with
  | [] => 0
  | r :: rs => (rs.map row_units).foldl max (row_units r)

/-- `let rows_count = keys.len() as f32;` -/
def rows_count (keys : List (List Key)) : ℚ :=
  (keys.length : ℚ)

/-- `let button_height = available_height / 3.0 / ((rows_count - 1.0) * SPACE_BETWEEN_KEYS + rows_count);` -/
def button_height (available_height : ℚ) (keys : List (List Key)) : ℚ :=
  available_height / 3 / ((rows_count keys - 1) * SPACE_BETWEEN_KEYS + rows_count keys)

/-- `let vertical_space = button_height * SPACE_BETWEEN_KEYS;` -/
def vertical_space (available_height : ℚ) (keys : List (List Key)) : ℚ :=
  button_height available_height keys * SPACE_BETWEEN_KEYS

/-- `let button_width = available_width / widest_row;` -/
def button_width (available_width : ℚ) (keys : List (List Key)) : ℚ :=
  available_width / widest_row keys

/-- `let horizontal_space = button_width * SPACE_BETWEEN_KEYS;` -/
def horizontal_space (available_width : ℚ) (keys : List (List Key)) : ℚ :=
  button_width available_width keys * SPACE_BETWEEN_KEYS

/-- `let row_total_width = row_buttons_width*button_width + (row_len + 1.0) * horizontal_space;` -/
def row_total_width (available_width : ℚ) (keys : List (List Key)) (row : List Key) : ℚ :=
  row_buttons_width row * button_width available_width keys
    + ((row.length : ℚ) + 1) * horizontal_space available_width keys

/-- `let row_total_relative_width = row_total_width / button_width;` -/
def row_total_relative_width (available_width : ℚ) (keys : List (List Key)) (row : List Key) : ℚ :=
  row_total_width available_width keys row / button_width available_width keys

/-- `let space_buttons_count = row.iter().filter(|key| matches!(key, Key::Space)).count();` -/
def space_buttons_count (row : List Key) : ℕ :=
  (row.filter (fun k => match k with | .Space => true | _ => false)).length

/-- `let space_relative_width = if space_buttons_count == 0 { 0.0 } else
{ (widest_row - row_total_relative_width) / (space_buttons_count as f32) };` -/
def space_relative_width (available_width : ℚ) (keys : List (List Key)) (row : List Key) : ℚ :=
  if space_buttons_count row = 0 then 0
  else (widest_row keys - row_total_relative_width available_width keys row)
        / (space_buttons_count row : ℚ)

/-- `let edge_space = if space_buttons_count == 0
{ (available_width - row_total_width) / 2.0 + horizontal_space } else { horizontal_space };` -/
def edge_space (available_width : ℚ) (keys : List (List Key)) (row : List Key) : ℚ :=
  if space_buttons_count row = 0 then
    (available_width - row_total_width available_width keys row) / 2
      + horizontal_space available_width keys
  else horizontal_space available_width keys

/-- The width of the button emitted for one key of the row: the `Vec2::new(..)`
x-components in the `match key` arms of `Keyboard::show` — Space keys get
`button_width * space_relative_width`, every other key gets
`button_width * key.width_relative()`. -/
def key_emitted_width (available_width : ℚ) (keys : List (List Key)) (row : List Key) :
    Key → ℚ
  | .Space => button_width available_width keys * space_relative_width available_width keys row
  | k => button_width available_width keys * k.width_relative

/-- The total horizontal extent emitted for a (non-empty) row: the leading
`ui.add_space(edge_space)`, the key buttons, `horizontal_space` after each key
but the last, and the trailing `ui.add_space(horizontal_space)` — so the
spacing after the leading edge totals `row.length` copies of `horizontal_space`
(`item_spacing` is set to zero). -/
def row_emitted_width (available_width : ℚ) (keys : List (List Key)) (row : List Key) : ℚ :=
  edge_space available_width keys row
    + ((row.map (key_emitted_width available_width keys row)).sum)
    + (row.length : ℚ) * horizontal_space available_width keys

/-- The total vertical extent emitted by `Keyboard::show` when the clipboard
holds no text: `ui.add_space(vertical_space)` first, then for every non-empty
row a row of buttons of height `button_height` followed by
`ui.add_space(vertical_space)`; empty rows are skipped by `continue`. -/
def total_vertical_extent (available_height : ℚ) (keys : List (List Key)) : ℚ :=
  vertical_space available_height keys
    + (((keys.filter (fun r => !r.isEmpty)).length : ℚ))
        * (button_height available_height keys + vertical_space available_height keys)

/-- One step of `Keyboard::keyboard_input_needed`, as a function of the
`needed: u32` counter and of `ctx.wants_keyboard_input()`: if the host wants
keyboard input, set the counter to 20 and report `true`; otherwise
`needed = needed.saturating_sub(1)` (truncated `Nat` subtraction) and report
`needed > 0`. Returns the new counter and the reported bool. -/
def keyboard_input_needed (needed : ℕ) (wants_keyboard_input : Bool) : ℕ × Bool :=
  if wants_keyboard_input then (20, true)
  else (needed - 1, decide (0 < needed - 1))

/-- The `needed` counter after feeding a sequence of per-frame
`wants_keyboard_input` values through `keyboard_input_needed`. -/
def run_needed (needed : ℕ) : List Bool → ℕ
  | [] => needed
  | w :: ws => run_needed (keyboard_input_needed needed w).1 ws

/-- The per-frame visibility outputs of `keyboard_input_needed` over a
sequence of `wants_keyboard_input` values. -/
def run_visible (needed : ℕ) : List Bool → List Bool
  | [] => []
  | w :: ws =>
    (keyboard_input_needed needed w).2 :: run_visible (keyboard_input_needed needed w).1 ws

/-- The loop body of `trim_text`: the chars of the text are visited with their
index `n`; once `n >= max_length`, a single '…' is pushed and the loop breaks;
otherwise the char itself is pushed. -/
def trim_text_go (max_length : ℕ) : ℕ → List Char → List Char
  | _, [] => []
  | n, c :: cs => if max_length ≤ n then ['…'] else c :: trim_text_go max_length (n + 1) cs

/-- `fn trim_text(text: &str, max_length: usize) -> String`; Rust `str::chars`
is modelled by `List Char`. -/
def trim_text (text : List Char) (max_length : ℕ) : List Char :=
  trim_text_go max_length 0 text

/-- `egui::Modifiers` (the five boolean flags); `Modifiers::NONE` has every
flag false. -/
structure Modifiers where
  alt : Bool
  ctrl : Bool
  shift : Bool
  mac_cmd : Bool
  command : Bool
deriving DecidableEq

/-- `Modifiers::NONE`. -/
def Modifiers.NONE : Modifiers :=
  ⟨false, false, false, false, false⟩

/-- The `egui::Key` enum, restricted to the one variant this crate emits. -/
inductive EguiKey where
  | Backspace
deriving DecidableEq

/-- The `egui::Event` variants this crate constructs: `Event::Text(String)`
(strings as `List Char`) and `Event::Key { key, pressed, repeat, modifiers }`
(the unused `physical_key: None` field is omitted). -/
inductive Event where
  | Text (s : List Char)
  | Key (key : EguiKey) (pressed : Bool) (rep : Bool) (modifiers : Modifiers)
deriving DecidableEq

/-- `egui::Rect`: an axis-aligned rectangle given by its min and max points. -/
structure Rect where
  min : ℚ × ℚ
  max : ℚ × ℚ
deriving DecidableEq

/-- The `Keyboard` struct: `input_widget: Option<Id>` (ids as `ℕ`),
`events: VecDeque<Event>` (front of the deque at the head of the list),
`upper: bool`, `special: bool`, `keyboard_layout: KeyboardLayout` (modelled by
its `get_keys` function, a pure map from the two mode booleans to a grid),
`shift_characters: [char; 2]`, `backspace_character: char`, `needed: u32`,
`last_rect: Option<Rect>`. -/
structure Keyboard where
  input_widget : Option ℕ
  events : List Event
  upper : Bool
  special : Bool
  keyboard_layout : Bool → Bool → List (List Key)
  shift_characters : Char × Char
  backspace_character : Char
  needed : ℕ
  last_rect : Option Rect

/-- The slice of `egui::Context` state `pump_events` touches: the host's
pending input event list (`ctx.input_mut(|input| input.events)`). -/
structure Context where
  input_events : List Event

/-- `Keyboard::pump_events`:
`ctx.input_mut(|input| input.events.extend(std::mem::take(&mut self.events)))` —
the keyboard's queued events are appended, front first, to the host's input
event list, and the keyboard's queue is left empty. -/
def pump_events (kb : Keyboard) (ctx : Context) : Keyboard × Context :=
  ({ kb with events := [] }, { ctx with input_events := ctx.input_events ++ kb.events })

/-- The state change of `Keyboard::key` when its button is clicked:
`self.events.push_back(event)` followed by `focus_back_to_input_widget`
(which only writes a focus request into the host context's memory and touches
no `Keyboard` field). -/
def key_click (kb : Keyboard) (event : Event) : Keyboard :=
  { kb with events := kb.events ++ [event] }

/-- The state change of `Keyboard::text_key` when clicked:
`self.key(ui, text, Event::Text(text.to_string()), ..)`. -/
def text_key_click (kb : Keyboard) (text : List Char) : Keyboard :=
  key_click kb (.Text text)

/-- The state change of `Keyboard::backspace_key` when clicked. -/
def backspace_key_click (kb : Keyboard) : Keyboard :=
  key_click kb (.Key .Backspace true false Modifiers.NONE)

/-- The state change of `Keyboard::upper_layout_key` when its button is
clicked: `self.upper = !self.upper;` followed by `focus_back_to_input_widget`;
nothing is pushed onto `self.events`. -/
def upper_layout_key_click (kb : Keyboard) : Keyboard :=
  { kb with upper := !kb.upper }

/-- The state change of `Keyboard::special_layout_key` when clicked:
`self.special = !self.special;`; nothing is pushed onto `self.events`. -/
def special_layout_key_click (kb : Keyboard) : Keyboard :=
  { kb with special := !kb.special }

/-- The label of the clipboard-preview button of `Keyboard::clipboard_key`
when the clipboard holds `text`: `trim_text(&text, 20)`. -/
def clipboard_key_label (text : List Char) : List Char :=
  trim_text text 20

/-- The state change of `Keyboard::clipboard_key` when the clipboard-preview
button is clicked: `self.events.push_back(Event::Text(text.to_string()))` with
the full untrimmed clipboard text. -/
def clipboard_key_click (kb : Keyboard) (text : List Char) : Keyboard :=
  { kb with events := kb.events ++ [.Text text] }

end EguiKeyboard

namespace EguiKeyboard

/-- Every relative key width of the source is nonnegative. -/
lemma width_relative_nonneg (k : Key) : 0 ≤ k.width_relative := by
  cases k <;> norm_num [Key.width_relative]

/-- A row's summed relative button width is nonnegative. -/
lemma row_buttons_width_nonneg (row : List Key) : 0 ≤ row_buttons_width row := by
  refine List.sum_nonneg ?_
  intro x hx
  rcases List.mem_map.mp hx with ⟨k, -, rfl⟩
  exact width_relative_nonneg k

/-- A non-empty row contributes strictly positive units to the widest-row
computation (at least its two edge spacing units). -/
lemma row_units_pos {row : List Key} (h : row ≠ []) : 0 < row_units row := by
  have h1 := row_buttons_width_nonneg row
  have h2 : (1 : ℚ) ≤ (row.length : ℚ) := by
    exact_mod_cast List.length_pos.mpr h
  unfold row_units SPACE_BETWEEN_KEYS
  linarith

/-- The seed of a left fold of `max` is a lower bound of the fold. -/
lemma le_foldl_max (a : ℚ) (l : List ℚ) : a ≤ l.foldl max a := by
  induction l generalizing a with
  | nil => simp
  | cons x xs ih => exact le_trans (le_max_left a x) (ih (max a x))

/-- Every element of the list is a lower bound of a left fold of `max`. -/
lemma mem_le_foldl_max {x : ℚ} {l : List ℚ} (a : ℚ) (h : x ∈ l) : x ≤ l.foldl max a := by
  induction l generalizing a with
  | nil => simp at h
  | cons y ys ih =>
    rcases List.mem_cons.mp h with rfl | h
    · exact le_trans (le_max_right a x) (le_foldl_max _ _)
    · exact ih _ h

/-- Every row of the grid has at most `widest_row` units. -/
lemma le_widest_row {row : List Key} {keys : List (List Key)} (h : row ∈ keys) :
    row_units row ≤ widest_row keys := by
  match keys, h with
  | r :: rs, h =>
    rw [widest_row]
    rcases List.mem_cons.mp h with rfl | h
    · exact le_foldl_max _ _
    · exact mem_le_foldl_max _ (List.mem_map_of_mem _ h)

/-- A grid containing a non-empty row has a strictly positive `widest_row`. -/
lemma widest_row_pos {row : List Key} {keys : List (List Key)}
    (hmem : row ∈ keys) (hne : row ≠ []) : 0 < widest_row keys :=
  lt_of_lt_of_le (row_units_pos hne) (le_widest_row hmem)

/-- Splitting the emitted key widths of a list of keys: the non-Space keys
contribute `button_width * width_relative` (Space's fixed relative width being
zero), and each Space key contributes `button_width * space_relative_width`. -/
lemma sum_key_emitted (aw : ℚ) (keys : List (List Key)) (row : List Key) (l : List Key) :
    (l.map (key_emitted_width aw keys row)).sum
      = button_width aw keys * row_buttons_width l
        + (space_buttons_count l : ℚ)
            * (button_width aw keys * space_relative_width aw keys row) := by
  induction l with
  | nil => simp [row_buttons_width, space_buttons_count]
  | cons k t ih =>
    cases k
    case Space =>
      simp [List.filter_cons, ih, key_emitted_width, row_buttons_width,
        space_buttons_count, Key.width_relative]
      ring
    all_goals
      simp [List.filter_cons, ih, key_emitted_width, row_buttons_width,
        space_buttons_count, Key.width_relative]
      ring



/-- Claim C1 (amended): in a non-empty rendered row, the emitted key widths
plus all emitted spacing widths sum to the available width when the row
contains a Space key; when it contains none, they sum to
`(available_width + row_total_width) / 2` - the code emits the centering pad
only on the left edge and a plain `horizontal_space` on the right, leaving the
right-hand centering pad as unemitted slack. -/
theorem width_conservation_amended (aw : ℚ) (keys : List (List Key)) (row : List Key)
    (hmem : row ∈ keys) (hne : row ≠ []) :
    row_emitted_width aw keys row
      = if space_buttons_count row = 0
          then (aw + row_total_width aw keys row) / 2
          else aw := by
  have hW : 0 < widest_row keys := widest_row_pos hmem hne
  rw [row_emitted_width, sum_key_emitted]
  by_cases hc : space_buttons_count row = 0
  · rw [if_pos hc, edge_space, if_pos hc, hc]
    push_cast
    simp only [row_total_width]
    ring
  · rw [if_neg hc, edge_space, if_neg hc]
    have hcnt : (space_buttons_count row : ℚ) ≠ 0 := Nat.cast_ne_zero.mpr hc
    rcases eq_or_ne aw 0 with rfl | ha
    · simp [horizontal_space, button_width, row_total_width, row_total_relative_width,
        space_relative_width, hc]
    · have hb : button_width aw keys ≠ 0 := div_ne_zero ha hW.ne'
      rw [space_relative_width, if_neg hc, row_total_relative_width, row_total_width,
        horizontal_space, button_width]
      field_simp
      ring



/-- Claim C1 counterexample: in the grid `[[Text a, Text b, Text c], [Text d]]`
with available width 11, the space-free row `[Text d]` emits a total width of
15/2, not the available width 11. -/
theorem width_conservation_cex :
    [Key.Text ("d")] ∈ [[Key.Text ("a"), Key.Text ("b"), Key.Text ("c")], [Key.Text ("d")]]
    ∧ [Key.Text ("d")] ≠ ([] : List Key)
    ∧ row_emitted_width 11 [[Key.Text ("a"), Key.Text ("b"), Key.Text ("c")], [Key.Text ("d")]]
        [Key.Text ("d")] = 15/2
    ∧ ((15 : ℚ)/2) ≠ 11 := by
  refine ⟨by simp, by simp, ?_, by norm_num⟩
  norm_num [row_emitted_width, edge_space, space_buttons_count, key_emitted_width,
    row_total_width, row_buttons_width, horizontal_space, button_width, widest_row,
    row_units, Key.width_relative, SPACE_BETWEEN_KEYS]

/-- Witness for `width_conservation_amended` at the concrete grid
`[[Text a, Text b, Text c], [Space]]` with available width 11. -/
theorem width_conservation_amended_witness :
    [Key.Space] ∈ [[Key.Text ("a"), Key.Text ("b"), Key.Text ("c")], [Key.Space]]
    ∧ row_emitted_width 11 [[Key.Text ("a"), Key.Text ("b"), Key.Text ("c")], [Key.Space]] [Key.Space]
        = if space_buttons_count [Key.Space] = 0
            then (11 + row_total_width 11
                    [[Key.Text ("a"), Key.Text ("b"), Key.Text ("c")], [Key.Space]] [Key.Space]) / 2
            else 11 :=
  ⟨by simp,
   width_conservation_amended 11
     [[Key.Text ("a"), Key.Text ("b"), Key.Text ("c")], [Key.Space]] [Key.Space]
     (by simp) (by simp)⟩

/-- Claim C2 counterexample: for the grid `[[Text a]]` and available height 9
the emitted vertical extent is 4, while one third of the available height
is 3. -/
theorem height_conservation_cex :
    total_vertical_extent 9 [[Key.Text ("a")]] = 4
    ∧ (9 : ℚ) / 3 = 3
    ∧ (4 : ℚ) ≠ 3 := by
  refine ⟨?_, by norm_num, by norm_num⟩
  norm_num [total_vertical_extent, vertical_space, button_height, rows_count,
    SPACE_BETWEEN_KEYS]

/-- Claim C2 (amended): for every grid and available height, the row height
solves `available_height = 3 * (rows * h + (rows - 1) * h * SPACE_BETWEEN_KEYS)`
with `rows` counting every row, empty ones included, but the total vertical
extent the keyboard emits (top padding + rendered row heights + inter-row
spacing + bottom padding) is `available_height / 3 + 2 * vertical_space -
(number of empty rows) * (button_height + vertical_space)`: the solved
equation budgets `rows - 1` spacing slots over `rows` rows, while the code
emits one height-plus-spacing slot per non-empty row plus a leading and a
trailing padding slot, so for a grid with no empty rows the extent exceeds one
third of the available height by exactly two spacing slots, and each empty row
(counted by the solve at line 144 but skipped by `continue` when emitting)
removes one height-plus-spacing slot from it. -/
theorem height_conservation_amended (ah : ℚ) (keys : List (List Key)) :
    ah = 3 * (rows_count keys * button_height ah keys
          + (rows_count keys - 1) * button_height ah keys * SPACE_BETWEEN_KEYS)
    ∧ total_vertical_extent ah keys
        = ah / 3 + 2 * vertical_space ah keys
          - (rows_count keys - ((keys.filter (fun r => !r.isEmpty)).length : ℚ))
              * (button_height ah keys + vertical_space ah keys) := by
  have hd : (rows_count keys - 1) * SPACE_BETWEEN_KEYS + rows_count keys ≠ 0 := by
    unfold rows_count SPACE_BETWEEN_KEYS
    rcases Nat.eq_zero_or_pos keys.length with h | h
    · rw [h]
      norm_num
    · have h1 : (1 : ℚ) ≤ (keys.length : ℚ) := by exact_mod_cast h
      intro hcon
      nlinarith
  constructor
  · rw [button_height]
    field_simp
    ring
  · rw [total_vertical_extent, vertical_space, button_height]
    field_simp
    ring

/-- Claim C5: in a row with at least one Space key, the computed
`space_relative_width` is the deficit of the row's total relative width (key
relative widths plus `row_length + 1` spacing units) with respect to the
widest row, divided equally among the Space keys, and the row's total relative
width including the Space keys then equals the widest row's exactly. -/
theorem stretch_correctness (aw : ℚ) (keys : List (List Key)) (row : List Key)
    (hmem : row ∈ keys) (hne : row ≠ []) (ha : 0 < aw)
    (hc : 0 < space_buttons_count row) :
    space_relative_width aw keys row
      = (widest_row keys
          - (row_buttons_width row + ((row.length : ℚ) + 1) * SPACE_BETWEEN_KEYS))
          / (space_buttons_count row : ℚ)
    ∧ row_buttons_width row + ((row.length : ℚ) + 1) * SPACE_BETWEEN_KEYS
        + (space_buttons_count row : ℚ) * space_relative_width aw keys row
      = widest_row keys := by
  have hW : 0 < widest_row keys := widest_row_pos hmem hne
  have hb : button_width aw keys ≠ 0 := div_ne_zero ha.ne' hW.ne'
  have hc0 : space_buttons_count row ≠ 0 := Nat.pos_iff_ne_zero.mp hc
  have hcnt : (space_buttons_count row : ℚ) ≠ 0 := Nat.cast_ne_zero.mpr hc0
  have hrel : row_total_relative_width aw keys row
      = row_buttons_width row + ((row.length : ℚ) + 1) * SPACE_BETWEEN_KEYS := by
    rw [row_total_relative_width, row_total_width, horizontal_space]
    field_simp
    ring
  have h1 : space_relative_width aw keys row
      = (widest_row keys
          - (row_buttons_width row + ((row.length : ℚ) + 1) * SPACE_BETWEEN_KEYS))
          / (space_buttons_count row : ℚ) := by
    rw [space_relative_width, if_neg hc0, hrel]
  refine ⟨h1, ?_⟩
  rw [h1]
  field_simp

/-- Witness for `stretch_correctness` at the grid
`[[Text a, Text b, Text c], [Space]]` with available width 11. -/
theorem stretch_correctness_witness :
    [Key.Space] ∈ [[Key.Text ("a"), Key.Text ("b"), Key.Text ("c")], [Key.Space]]
    ∧ 0 < space_buttons_count [Key.Space]
    ∧ (space_relative_width 11 [[Key.Text ("a"), Key.Text ("b"), Key.Text ("c")], [Key.Space]]
          [Key.Space]
        = (widest_row [[Key.Text ("a"), Key.Text ("b"), Key.Text ("c")], [Key.Space]]
            - (row_buttons_width [Key.Space]
                + (([Key.Space].length : ℚ) + 1) * SPACE_BETWEEN_KEYS))
            / (space_buttons_count [Key.Space] : ℚ)
      ∧ row_buttons_width [Key.Space]
          + (([Key.Space].length : ℚ) + 1) * SPACE_BETWEEN_KEYS
          + (space_buttons_count [Key.Space] : ℚ)
              * space_relative_width 11 [[Key.Text ("a"), Key.Text ("b"), Key.Text ("c")], [Key.Space]]
                  [Key.Space]
        = widest_row [[Key.Text ("a"), Key.Text ("b"), Key.Text ("c")], [Key.Space]]) :=
  ⟨by simp, by simp [space_buttons_count],
   stretch_correctness 11 [[Key.Text ("a"), Key.Text ("b"), Key.Text ("c")], [Key.Space]]
     [Key.Space] (by simp) (by simp) (by norm_num) (by simp [space_buttons_count])⟩

/-- Claim C6: a row with no Space key is centered - the empty space emitted
before its first key (`edge_space`) equals the empty space remaining after its
last key, i.e. the available width minus everything emitted up to and
including the last key. -/
theorem centering (aw : ℚ) (keys : List (List Key)) (row : List Key)
    (_hmem : row ∈ keys) (_hne : row ≠ [])
    (hc : space_buttons_count row = 0) :
    edge_space aw keys row
      = aw - (edge_space aw keys row
          + ((row.map (key_emitted_width aw keys row)).sum)
          + ((row.length : ℚ) - 1) * horizontal_space aw keys) := by
  rw [sum_key_emitted, hc, edge_space, if_pos hc]
  push_cast
  simp only [row_total_width]
  ring

/-- Witness for `centering` at the grid `[[Text a, Text b, Text c], [Text d]]`
with available width 11: left pad and right residual both equal 4. -/
theorem centering_witness :
    [Key.Text ("d")] ∈ [[Key.Text ("a"), Key.Text ("b"), Key.Text ("c")], [Key.Text ("d")]]
    ∧ space_buttons_count [Key.Text ("d")] = 0
    ∧ edge_space 11 [[Key.Text ("a"), Key.Text ("b"), Key.Text ("c")], [Key.Text ("d")]] [Key.Text ("d")]
        = 11 - (edge_space 11 [[Key.Text ("a"), Key.Text ("b"), Key.Text ("c")], [Key.Text ("d")]]
              [Key.Text ("d")]
            + (([Key.Text ("d")].map (key_emitted_width 11
                [[Key.Text ("a"), Key.Text ("b"), Key.Text ("c")], [Key.Text ("d")]]
                [Key.Text ("d")])).sum)
            + (([Key.Text ("d")].length : ℚ) - 1)
                * horizontal_space 11 [[Key.Text ("a"), Key.Text ("b"), Key.Text ("c")], [Key.Text ("d")]]) :=
  ⟨by simp, by simp [space_buttons_count],
   centering 11 [[Key.Text ("a"), Key.Text ("b"), Key.Text ("c")], [Key.Text ("d")]] [Key.Text ("d")]
     (by simp) (by simp) (by simp [space_buttons_count])⟩

/-- Claim C8 (code-bug evidence): for a grid with zero rows the code does not
guard the degenerate layout - `widest_row` is 0 (so `button_width` divides the
available width by zero; an infinity in `f32`, 0 under the `ℚ` convention) and
`button_height` divides by the negative unit count `-1/6`, yielding `-2 *
available_height` (here -6 for height 3) rather than a zero allocation; the
emitted leading vertical padding is -1, not 0. -/
theorem degenerate_layout_eval :
    widest_row ([] : List (List Key)) = 0
    ∧ rows_count ([] : List (List Key)) = 0
    ∧ button_height 3 ([] : List (List Key)) = -6
    ∧ vertical_space 3 ([] : List (List Key)) = -1
    ∧ button_height 3 ([] : List (List Key)) ≠ 0 := by
  refine ⟨rfl, by norm_num [rows_count], ?_, ?_, ?_⟩ <;>
    norm_num [button_height, vertical_space, rows_count, SPACE_BETWEEN_KEYS]



/-- The visibility outputs of a concatenated input sequence split at the
concatenation, the second part starting from the counter the first part
leaves behind. -/
lemma run_visible_append (n : ℕ) (a b : List Bool) :
    run_visible n (a ++ b) = run_visible n a ++ run_visible (run_needed n a) b := by
  induction a generalizing n with
  | nil => simp [run_visible, run_needed]
  | cons w ws ih => simp [run_visible, run_needed, ih]

/-- Feeding `j` frames of `false` from counter `n`: the output is `true` for
the first `min j (n - 1)` frames and `false` afterwards (the code decrements
before testing `> 0`). -/
lemma run_visible_replicate_false (n j : ℕ) :
    run_visible n (List.replicate j false)
      = List.replicate (min j (n - 1)) true ++ List.replicate (j - (n - 1)) false := by
  induction j generalizing n with
  | zero => simp [run_visible]
  | succ j ih =>
    rw [List.replicate_succ, run_visible, ih]
    rcases Nat.lt_or_ge n 2 with h | h
    · have h1 : (keyboard_input_needed n false).1 = 0 := by
        simp [keyboard_input_needed]; omega
      have h2 : (keyboard_input_needed n false).2 = false := by
        simp [keyboard_input_needed]; omega
      rw [h1, h2]
      have h3 : min (j + 1) (n - 1) = 0 := by omega
      have h4 : min j (0 - 1) = 0 := by omega
      have h5 : j - (0 - 1) = j := by omega
      have h6 : j + 1 - (n - 1) = j + 1 := by omega
      rw [h3, h4, h5, h6]
      simp [List.replicate_succ]
    · have h1 : (keyboard_input_needed n false).1 = n - 1 := by
        simp [keyboard_input_needed]
      have h2 : (keyboard_input_needed n false).2 = true := by
        simp [keyboard_input_needed]; omega
      rw [h1, h2]
      have h3 : min (j + 1) (n - 1) = min j (n - 1 - 1) + 1 := by omega
      have h4 : j + 1 - (n - 1) = j - (n - 1 - 1) := by omega
      rw [h3, h4, List.replicate_succ]
      simp



/-- Claim C3 (amended): after the last `true` input the visible output stays
true for exactly 19 additional frames and then becomes false - one fewer than
the claimed 20, because the counter is decremented before the `> 0` test; for
the scenario `[true, then 25 times false]` the output is true on frames 1
through 20 and false from frame 21 onward. -/
theorem hysteresis_amended :
    (∀ (n : ℕ) (pre : List Bool) (j : ℕ),
      run_visible n (pre ++ true :: List.replicate j false)
        = run_visible n pre
            ++ true :: (List.replicate (min j 19) true ++ List.replicate (j - 19) false))
    ∧ run_visible 0 (true :: List.replicate 25 false)
        = List.replicate 20 true ++ List.replicate 6 false := by
  constructor
  · intro n pre j
    rw [run_visible_append]
    congr 1
    rw [run_visible, run_visible_replicate_false]
    simp [keyboard_input_needed]
  · decide

/-- Claim C3 counterexample: for the input `[true, then 25 times false]` the
visible outputs are 20 trues followed by 6 falses - not the claimed 21 trues
followed by 5 falses (frame 21 is false, the claim says true). -/
theorem hysteresis_cex :
    run_visible 0 (true :: List.replicate 25 false)
        = List.replicate 20 true ++ List.replicate 6 false
    ∧ run_visible 0 (true :: List.replicate 25 false)
        ≠ List.replicate 21 true ++ List.replicate 5 false := by
  constructor <;> decide

/-- Claim C4: one step of the visibility update - on `wants_keyboard_input =
true` the counter is reset to 20 and `true` is returned regardless of the
prior counter; otherwise the counter is decremented by 1 with a floor at 0 and
the returned bool is whether the resulting counter is strictly positive. -/
theorem keyboard_input_needed_step (needed : ℕ) :
    keyboard_input_needed needed true = (20, true)
    ∧ (keyboard_input_needed needed false).1 = needed - 1
    ∧ ((keyboard_input_needed needed false).2 = true ↔ 0 < needed - 1) := by
  refine ⟨rfl, rfl, ?_⟩
  simp [keyboard_input_needed]



/-- If every index the loop visits stays below `max_length`, `trim_text` copies
the text unchanged. -/
lemma trim_text_go_of_le (max_length n : ℕ) (cs : List Char)
    (h : n + cs.length ≤ max_length) :
    trim_text_go max_length n cs = cs := by
  induction cs generalizing n with
  | nil => rfl
  | cons c cs ih =>
    rw [trim_text_go, if_neg (by simp at h; omega)]
    rw [ih]
    simp at h
    omega

/-- If the text extends past `max_length`, the loop copies the chars up to
index `max_length` and then pushes a single ellipsis. -/
lemma trim_text_go_of_gt (max_length n : ℕ) (cs : List Char)
    (hn : n ≤ max_length) (h : max_length < n + cs.length) :
    trim_text_go max_length n cs = cs.take (max_length - n) ++ ['…'] := by
  induction cs generalizing n with
  | nil =>
    simp at h
    omega
  | cons c cs ih =>
    by_cases hc : max_length ≤ n
    · have heq : max_length = n := le_antisymm hc hn
      rw [trim_text_go, if_pos hc, heq]
      simp
    · rw [trim_text_go, if_neg hc]
      rw [ih (n + 1) (by omega) (by simp at h ⊢; omega)]
      have h5 : max_length - n = (max_length - (n + 1)) + 1 := by omega
      rw [h5, List.take_succ_cons]
      simp

/-- Claim C7: the clipboard-preview label is the clipboard string unchanged
when its length is at most 20 chars, and its first 20 chars followed by
exactly one ellipsis when longer; in both cases a click pushes a text event
carrying the full untrimmed clipboard string. -/
theorem clipboard_trimming (text : List Char) :
    (text.length ≤ 20 → clipboard_key_label text = text)
    ∧ (20 < text.length → clipboard_key_label text = text.take 20 ++ ['…'])
    ∧ ∀ kb : Keyboard,
        (clipboard_key_click kb text).events = kb.events ++ [Event.Text text] := by
  refine ⟨fun h => ?_, fun h => ?_, fun kb => rfl⟩
  · rw [clipboard_key_label, trim_text, trim_text_go_of_le]
    omega
  · rw [clipboard_key_label, trim_text, trim_text_go_of_gt 20 0 text (by omega) (by omega)]

/-- Witness for `clipboard_trimming` at the 21-char text `aaaa...a`: the label
is its first 20 chars plus one ellipsis. -/
theorem clipboard_trimming_witness :
    20 < (List.replicate 21 'a').length
    ∧ clipboard_key_label (List.replicate 21 'a')
        = (List.replicate 21 'a').take 20 ++ ['…'] :=
  ⟨by simp, (clipboard_trimming (List.replicate 21 'a')).2.1 (by simp)⟩

/-- Claim C9: clicking the ShiftToggle (`Upper`) key flips `upper` and pushes
no event, so two clicks restore `upper` and both clicks leave the event queue
unchanged. -/
theorem shift_toggle_idempotent (kb : Keyboard) :
    (upper_layout_key_click kb).upper = !kb.upper
    ∧ (upper_layout_key_click (upper_layout_key_click kb)).upper = kb.upper
    ∧ (upper_layout_key_click kb).events = kb.events
    ∧ (upper_layout_key_click (upper_layout_key_click kb)).events = kb.events := by
  simp [upper_layout_key_click]

/-- Claim C10: `pump_events` appends the keyboard's pending events to the host
context's input event list in queue order, empties the keyboard's queue, and
modifies no other field of the keyboard. -/
theorem pump_events_spec (kb : Keyboard) (ctx : Context) :
    (pump_events kb ctx).2.input_events = ctx.input_events ++ kb.events
    ∧ (pump_events kb ctx).1.events = []
    ∧ (pump_events kb ctx).1.input_widget = kb.input_widget
    ∧ (pump_events kb ctx).1.upper = kb.upper
    ∧ (pump_events kb ctx).1.special = kb.special
    ∧ (pump_events kb ctx).1.keyboard_layout = kb.keyboard_layout
    ∧ (pump_events kb ctx).1.shift_characters = kb.shift_characters
    ∧ (pump_events kb ctx).1.backspace_character = kb.backspace_character
    ∧ (pump_events kb ctx).1.needed = kb.needed
    ∧ (pump_events kb ctx).1.last_rect = kb.last_rect :=
  ⟨rfl, rfl, rfl, rfl, rfl, rfl, rfl, rfl, rfl, rfl⟩

end EguiKeyboard
